import Mathlib

/-!
Shallow embedding of `src/mlproject/mlproject.py` (class `MLProject`).

Conventions of the embedding:
* Python `int` counters become `Nat` (they are never negative in the code);
  scores and metric values become `ℚ` (exact arithmetic in place of floats).
* The sacred config dict is embedded as a structure holding the `Option`al
  keys the code reads; `None`/absent is `none`, and Python truthiness of a
  present value is modelled by the `truthyStr` / `truthyNat` helpers
  (`0`, `""` and `None` are falsy).
* Raising an exception becomes returning `Except.error`; the `TrainingStop`
  control-flow exception of `train_epoch` becomes an explicit `Bool`
  ("stopped") in the result, since `train` catches it.
* External collaborators (the model built by `get_model`, whose class is
  abstract in this file of the repository, and `get_tensorboard_dir` from
  `mlproject.log`) are abstracted as parameters: the model's weights are an
  opaque association list produced by `init_weights`, its name by
  `model_name`, and the per-epoch evaluation score consumed by the training
  loop is an abstract function of the epoch index.
-/

/-- Embedded sacred configuration dict: the keys `MLProject` reads.
`none` stands for an absent key. -/
structure Config where
  model_dir : Option String
  device : Option String
  tensorboard_dir : Option String
  n_global_iterations : Option Nat
  n_epochs : Option Nat
  log_iteration_scalars : Option Nat
  log_iteration_all : Option Nat
deriving DecidableEq

/-- Python truthiness of an optional string (`None` and `""` are falsy). -/
def truthyStr : Option String → Bool
  | none => false
  | some s => s ≠ ""

/-- Python truthiness of an optional integer (`None` and `0` are falsy). -/
def truthyNat : Option Nat → Bool
  | none => false
  | some n => n ≠ 0

/-- The `LogLevel` enum from `mlproject.model`. -/
inductive LogLevel where
  | ALL
  | SCALARS
  | NONE
deriving DecidableEq

/-- Embeds `MLProject._is_better`.  `kind` is `self.model.benchmark_metric()`,
`best` is `self.best_score`.  The bare `raise Exception()` of the final
branch becomes `Except.error`. -/
def is_better (kind : String) (best : Option ℚ) (score : ℚ) : Except String Bool :=
  match best with
  | none => .ok true
  | some b =>
    if kind = "accuracy" ∨ kind = "loss" then .ok (decide (b < score))
    else if kind = "nll" then .ok (decide (b > score))
    else .error "Exception"

/-- Embeds `MLProject._should_stop_training`.  Reading the missing key
`n_epochs` raises `KeyError` in Python, hence `Except`. -/
def should_stop_training (cfg : Config) (global_step epoch : Nat) :
    Except String Bool :=
  match cfg.n_global_iterations with
  | some n => .ok (decide (global_step ≥ n))
  | none =>
    match cfg.n_epochs with
    | some n => .ok (decide (epoch ≥ n))
    | none => .error "KeyError: n_epochs"

/-- Embeds `MLProject._set_log_level`: the value assigned to `self.model.log`
as a function of the two configured intervals and the current `epoch_step`.
Python's `if log_it_all and (self.epoch_step % log_it_all) == 0` makes a
configured value of `0` behave as unconfigured (truthiness). -/
def set_log_level (cfg : Config) (epoch_step : Nat) : LogLevel :=
  let log_it_scalars := cfg.log_iteration_scalars
  let log_it_all := cfg.log_iteration_all
  if truthyNat log_it_all ∧ epoch_step % log_it_all.getD 0 = 0 then .ALL
  else if truthyNat log_it_scalars ∧ epoch_step % log_it_scalars.getD 0 = 0 then .SCALARS
  else .NONE

/-- Reading of the spec sentence for C5, used to compare with the code's
`set_log_level`: the level is ALL when the "all" interval is configured
(present in the config) and `epoch_step` is a multiple of it; otherwise
SCALARS under the same test for the "scalars" interval; otherwise NONE. -/
def set_log_level_spec (log_iteration_all log_iteration_scalars : Option Nat)
    (epoch_step : Nat) : LogLevel :=
  match log_iteration_all with
  | some a => if a ∣ epoch_step then .ALL
    else match log_iteration_scalars with
      | some s => if s ∣ epoch_step then .SCALARS else .NONE
      | none => .NONE
  | none =>
    match log_iteration_scalars with
    | some s => if s ∣ epoch_step then .SCALARS else .NONE
    | none => .NONE

/-- The counters of the training loop, plus `best_score`: the fields of
`MLProject` that `train` / `train_epoch` mutate. -/
structure LoopState where
  global_step : Nat
  epoch : Nat
  epoch_step : Nat
  best_score : Option ℚ
deriving DecidableEq

/-- The `for batch in progbar:` body of `MLProject.train_epoch`, iterated over
the remaining `batches` of the epoch's train loader: each batch increments
`global_step` and `epoch_step`, then `_should_stop_training` is consulted and
a `true` result raises `TrainingStop` (modelled as the `Bool` of the result,
leaving the remaining batches unprocessed).  Metric logging does not touch
the loop state and is omitted. -/
def run_batches (cfg : Config) (st : LoopState) :
    Nat → Except String (LoopState × Bool)
  | 0 => .ok (st, false)
  | batches + 1 =>
    let st' : LoopState :=
      { st with global_step := st.global_step + 1, epoch_step := st.epoch_step + 1 }
    match should_stop_training cfg st'.global_step st'.epoch with
    | .error e => .error e
    | .ok true => .ok (st', true)
    | .ok false => run_batches cfg st' batches

/-- Embeds `MLProject.train_epoch` for an epoch whose train loader yields
`batches` batches: stop is checked on entry, `epoch_step` is reset to `0`,
then the batches run via `run_batches`.  The returned `Bool` is whether
`TrainingStop` was raised. -/
def train_epoch (cfg : Config) (st : LoopState) (batches : Nat) :
    Except String (LoopState × Bool) :=
  match should_stop_training cfg st.global_step st.epoch with
  | .error e => .error e
  | .ok true => .ok (st, true)
  | .ok false => run_batches cfg { st with epoch_step := 0 } batches

/-- The evaluation step of `MLProject.train`'s epoch loop: given the score
returned by `test()`, compare via `_is_better` and on improvement update
`best_score` (the checkpoint write itself does not change the loop state). -/
def eval_step (kind : String) (score : ℚ) (st : LoopState) :
    Except String LoopState :=
  match is_better kind st.best_score score with
  | .error e => .error e
  | .ok true => .ok { st with best_score := some score }
  | .ok false => .ok st

/-- Embeds the `while True:` loop of `MLProject.train`.  Each epoch draws
`batches` batches; `has_test` is `dataset_factory.has_test_set()`; `score`
abstracts the value `test()` returns at a given epoch index; `kind` is the
model's `benchmark_metric()`.  `fuel` bounds the number of loop iterations
(`none` is returned when it runs out, i.e. the loop did not yet halt);
`some st` is the state at the `break` triggered by `TrainingStop`. -/
def train_loop (cfg : Config) (kind : String) (has_test : Bool)
    (score : Nat → ℚ) (batches : Nat) :
    Nat → LoopState → Except String (Option LoopState)
  | 0, _ => .ok none
  | fuel + 1, st =>
    match train_epoch cfg st batches with
    | .error e => .error e
    | .ok (st', true) => .ok (some st')
    | .ok (st', false) =>
      match (if has_test then eval_step kind (score st'.epoch) st' else .ok st') with
      | .error e => .error e
      | .ok st'' =>
        train_loop cfg kind has_test score batches fuel
          { st'' with epoch := st''.epoch + 1 }

/-- The inner accumulation of `MLProject.test` for one `(name, value)` item of
a batch's losses dict: `test_losses[name] = 0` if absent, then
`test_losses[name] += value / n`.  The ordered dict is an association list,
insertion appending at the end. -/
def addLoss (n : ℚ) (name : String) (value : ℚ) :
    List (String × ℚ) → List (String × ℚ)
  | [] => [(name, value / n)]
  | (k, v) :: rest =>
    if k = name then (k, v + value / n) :: rest
    else (k, v) :: addLoss n name value rest

/-- One batch of `MLProject.test`: fold `addLoss` over the batch's losses
dict (a list of name/value pairs). -/
def accumulate_batch (n : ℚ) (acc : List (String × ℚ))
    (losses : List (String × ℚ)) : List (String × ℚ) :=
  losses.foldl (fun a p => addLoss n p.1 p.2 a) acc

/-- The aggregation loop of `MLProject.test`: `test_losses` after the test
loader (a list of batches, each a losses dict) is exhausted, where `n` is
`len(dataset_factory.test_set())`. -/
def test_losses (n : ℚ) (batches : List (List (String × ℚ))) :
    List (String × ℚ) :=
  batches.foldl (accumulate_batch n) []

/-- Embeds the result of `MLProject.test`: the aggregated value under the
model's benchmark metric name; a missing key is Python's `KeyError`. -/
def test (n : ℚ) (batches : List (List (String × ℚ))) (benchmark : String) :
    Except String ℚ :=
  match (test_losses n batches).lookup benchmark with
  | some v => .ok v
  | none => .error "KeyError: benchmark metric"

/-- Python `"{:05}".format(n)`: decimal representation left-padded with
zeros to a minimum width of 5. -/
def format05 (n : Nat) : String :=
  let s := toString n
  if s.length < 5 then String.mk (List.replicate (5 - s.length) '0') ++ s else s

/-- The basename part of `MLProject.save_filename`:
`"{}_e{:05}_b{:05}.torch".format(self.model.name(), self.epoch, self.epoch_step)`. -/
def save_basename (name : String) (epoch epoch_step : Nat) : String :=
  name ++ "_e" ++ format05 epoch ++ "_b" ++ format05 epoch_step ++ ".torch"

/-- Embeds `MLProject.save_filename`: `os.path.join` of the save directory
and the formatted basename (for the relevant directories, which are plain
absolute paths without trailing separator, the join inserts one `/` and
`os.path.abspath` is the identity). -/
def save_filename (model_save_dir name : String) (epoch epoch_step : Nat) :
    String :=
  model_save_dir ++ "/" ++ save_basename name epoch epoch_step

/-- The fields of an `MLProject` instance that `state_dict` serializes and
`__init__` establishes (the device, writer and collaborator objects are not
part of the checkpoint).  Model weights are an opaque association list of
parameter names to values. -/
structure MLProject where
  _id : Nat
  config : Config
  global_step : Nat
  epoch : Nat
  epoch_step : Nat
  best_score : Option ℚ
  model_save_dir : String
  tensorboard_run_dir : Option String
  weights : List (String × Int)
deriving DecidableEq

/-- Embeds the module-level `get_model_dir`: requires the `model_dir` config
key, joins it with the model identifier. -/
def get_model_dir (config : Config) (model_identifier : String) :
    Except String String :=
  match config.model_dir with
  | some d => .ok (d ++ "/" ++ model_identifier)
  | none => .error "Cannot figure out model dir."

/-- Embeds `MLProject.__init__`.  The abstract collaborators appear as
function parameters: `init_weights` is `get_model(config).state_dict()` of a
freshly built model (training may change the values but never the set of
parameter names, which is fixed by the config); `model_name` is
`get_model(config).name()`; `get_tensorboard_dir` is the external helper of
`mlproject.log` (not part of this file), which always returns a path.
`fresh_id` stands for the
`random.randint(int(1e10), int(1e10) + int(1e8))` draw (used when `_id` is
falsy, i.e. absent or `0`); `model_state` is the `model_state` argument, the
empty list standing for Python `None` or an empty dict (both falsy, so
`load_state_dict` is skipped and the fresh model's own weights remain).
The `best_score` argument is accepted and then ignored: the body sets
`self.best_score = None` unconditionally.  Failure cases are a missing
`model_dir` key when a save directory must be resolved. -/
def init (init_weights : Config → List (String × Int))
    (model_name : Config → String) (get_tensorboard_dir : String → String)
    (fresh_id : Nat) (config : Config) (_id : Option Nat)
    (global_step epoch epoch_step : Nat) (best_score : Option ℚ)
    (model_save_dir : Option String) (tensorboard_run_dir : Option String)
    (model_state : List (String × Int)) : Except String MLProject :=
  let the_id : Nat :=
    match _id with
    | none => fresh_id
    | some 0 => fresh_id
    | some n => n
  let weights : List (String × Int) :=
    if model_state.isEmpty then init_weights config else model_state
  let tb : Option String :=
    if tensorboard_run_dir.isNone ∧ truthyStr config.tensorboard_dir then
      some (get_tensorboard_dir (toString the_id ++ "_" ++ model_name config))
    else tensorboard_run_dir
  match model_save_dir with
  | some d =>
    .ok ⟨the_id, config, global_step, epoch, epoch_step, none, d, tb, weights⟩
  | none =>
    match get_model_dir config (toString the_id ++ "_" ++ model_name config) with
    | .error e => .error e
    | .ok d =>
      .ok ⟨the_id, config, global_step, epoch, epoch_step, none, d, tb, weights⟩

/-- The dict returned by `MLProject.state_dict` and passed back to the
constructor by `MLProject.load` via `cls(**torch.load(filename))`. -/
structure StateDict where
  _id : Nat
  config : Config
  global_step : Nat
  epoch : Nat
  epoch_step : Nat
  best_score : Option ℚ
  model_save_dir : String
  tensorboard_run_dir : Option String
  model_state : List (String × Int)
deriving DecidableEq

/-- Embeds `MLProject.state_dict` (with `torch.save`/`torch.load` assumed to
round-trip the record faithfully, which is their contract). -/
def state_dict (p : MLProject) : StateDict :=
  ⟨p._id, p.config, p.global_step, p.epoch, p.epoch_step, p.best_score,
    p.model_save_dir, p.tensorboard_run_dir, p.weights⟩

/-- Embeds `MLProject.load`: `cls(**torch.load(filename))`, the keyword
arguments being exactly the fields of the saved `state_dict`. -/
def load (init_weights : Config → List (String × Int))
    (model_name : Config → String) (get_tensorboard_dir : String → String)
    (fresh_id : Nat) (d : StateDict) : Except String MLProject :=
  init init_weights model_name get_tensorboard_dir fresh_id d.config
    (some d._id) d.global_step d.epoch d.epoch_step d.best_score
    (some d.model_save_dir) d.tensorboard_run_dir d.model_state

/-- Facts true of every `MLProject` instance the constructor can produce
(and preserved by the training loop, which only touches the counters,
`best_score` and the weight values): the resolved id is truthy; a `None`
tensorboard run dir means the config had no truthy `tensorboard_dir` key
(otherwise `__init__` would have generated one); and empty weights can only
come from a model whose fresh weights are empty (the parameter-name set is
fixed by the config). -/
def WF (init_weights : Config → List (String × Int)) (p : MLProject) : Prop :=
  p._id ≠ 0 ∧
  (p.tensorboard_run_dir = none → truthyStr p.config.tensorboard_dir = false) ∧
  (p.weights = [] → init_weights p.config = [])

/-- The value an association list (ordered dict) holds under a key, `0` when
the key is absent — the running total `MLProject.test` keeps per metric
name. -/
def lookupD (l : List (String × ℚ)) (name : String) : ℚ :=
  (l.lookup name).getD 0

/-- The total contribution of metric `name` in one batch's losses dict
(the value under `name`; summed if the name occurred several times, which a
Python dict cannot exhibit, so on dict-like batches this is just the
value). -/
def batch_total (name : String) : List (String × ℚ) → ℚ
  | [] => 0
  | (k, v) :: rest => (if k = name then v else 0) + batch_total name rest

/-- Reading of the spec sentence for C6: the aggregated value of a metric is
the sum over all batches of the batch's value divided by the total item
count `n`. -/
def agg_spec (n : ℚ) (name : String) : List (List (String × ℚ)) → ℚ
  | [] => 0
  | b :: rest => batch_total name b / n + agg_spec n name rest

/-- A concrete config used to instantiate theorems on explicit inputs. -/
def sample_config : Config :=
  ⟨some "models", none, none, some 100, some 3, some 2, some 10⟩

/-- A concrete constructor-produced checkpoint state used to instantiate
theorems on explicit inputs. -/
def sample_project : MLProject :=
  ⟨1, sample_config, 5, 2, 3, some 7, "models/1_net", none, [("w", 4)]⟩

/-- C2: `_is_better` returns true for every score when `best_score` is `None`
(whatever the benchmark-metric kind); with a previous best score it returns,
for kind `nll`, whether the new score is strictly smaller, and for kinds
`accuracy` and `loss`, whether it is strictly greater. -/
theorem is_better_improvement_rule (kind : String) (b s : ℚ) :
    is_better kind none s = .ok true
    ∧ is_better "nll" (some b) s = .ok (decide (s < b))
    ∧ (kind = "accuracy" ∨ kind = "loss" →
        is_better kind (some b) s = .ok (decide (b < s))) := by
  refine ⟨rfl, rfl, ?_⟩
  rintro (rfl | rfl) <;> rfl

theorem is_better_improvement_rule_witness :
    is_better "loss" (some 2) 3 = .ok (decide ((2 : ℚ) < 3)) :=
  (is_better_improvement_rule "loss" 2 3).2.2 (Or.inr rfl)

/-- C3 (counterexample): with `best_score = None`, an unrecognized
benchmark-metric kind does not raise — `_is_better` returns `True` before
ever inspecting the kind, contradicting the claim that the fatal error is
raised for every value of `best_score`, including `None`. -/
theorem is_better_unknown_kind_none_ok :
    is_better "f1" none 0 = .ok true := rfl

/-- C3 (amended): an unrecognized benchmark-metric kind raises the fatal
error for every score whenever `best_score` is not `None`; when `best_score`
is `None`, `_is_better` returns true without inspecting the kind. -/
theorem is_better_unknown_kind_raises (kind : String) (b s : ℚ)
    (h1 : kind ≠ "accuracy") (h2 : kind ≠ "loss") (h3 : kind ≠ "nll") :
    is_better kind (some b) s = .error "Exception"
    ∧ is_better kind none s = .ok true := by
  refine ⟨?_, rfl⟩
  simp [is_better, h1, h2, h3]

theorem is_better_unknown_kind_raises_witness :
    is_better "f1" (some 0) 1 = .error "Exception"
    ∧ is_better "f1" none 1 = .ok true :=
  is_better_unknown_kind_raises "f1" 0 1
    (by decide) (by decide) (by decide)

/-- C5 (counterexample): the claim quantifies over every configuration of the
two intervals, but Python's truthiness makes a configured interval of `0`
behave as unconfigured.  With `log_iteration_all = 0` and `epoch_step = 0`,
`epoch_step` is a multiple of the configured interval (`0 ∣ 0`), so the
claimed rule selects ALL, yet `_set_log_level` selects NONE. -/
theorem set_log_level_zero_interval_cex :
    set_log_level ⟨none, none, none, none, none, none, some 0⟩ 0 = .NONE
    ∧ set_log_level_spec (some 0) none 0 = .ALL := by
  constructor <;> rfl

/-- C5 (amended): whenever neither interval is configured as `0`, the level
before a batch is ALL when `log_iteration_all` is configured and
`epoch_step` is a multiple of it, otherwise SCALARS when
`log_iteration_scalars` is configured and `epoch_step` is a multiple of it,
otherwise NONE; in particular with `log_iteration_all = 10` and
`log_iteration_scalars = 2`, `epoch_step = 10` gives ALL, `4` gives SCALARS
and `5` gives NONE. -/
theorem set_log_level_rule (cfg : Config) (epoch_step : Nat)
    (ha : cfg.log_iteration_all ≠ some 0)
    (hs : cfg.log_iteration_scalars ≠ some 0) :
    set_log_level cfg epoch_step =
      set_log_level_spec cfg.log_iteration_all cfg.log_iteration_scalars
        epoch_step
    ∧ set_log_level ⟨none, none, none, none, none, some 2, some 10⟩ 10 = .ALL
    ∧ set_log_level ⟨none, none, none, none, none, some 2, some 10⟩ 4 = .SCALARS
    ∧ set_log_level ⟨none, none, none, none, none, some 2, some 10⟩ 5 = .NONE := by
  refine ⟨?_, rfl, rfl, rfl⟩
  rcases hA : cfg.log_iteration_all with _ | a
  · rcases hS : cfg.log_iteration_scalars with _ | s
    · simp [set_log_level, set_log_level_spec, hA, hS, truthyNat]
    · have hs0 : s ≠ 0 := fun h => hs (h ▸ hS)
      simp [set_log_level, set_log_level_spec, hA, hS, truthyNat, hs0,
        Nat.dvd_iff_mod_eq_zero]
  · have ha0 : a ≠ 0 := fun h => ha (h ▸ hA)
    rcases hS : cfg.log_iteration_scalars with _ | s
    · simp [set_log_level, set_log_level_spec, hA, hS, truthyNat, ha0,
        Nat.dvd_iff_mod_eq_zero]
    · have hs0 : s ≠ 0 := fun h => hs (h ▸ hS)
      simp [set_log_level, set_log_level_spec, hA, hS, truthyNat, ha0, hs0,
        Nat.dvd_iff_mod_eq_zero]

theorem set_log_level_rule_witness :
    set_log_level ⟨none, none, none, none, none, some 2, some 10⟩ 6 =
      set_log_level_spec (some 10) (some 2) 6 :=
  (set_log_level_rule ⟨none, none, none, none, none, some 2, some 10⟩ 6
    (by decide) (by decide)).1

/-- C7: the checkpoint filename is
`<model_save_dir>/<model_name>_e<epoch>_b<epoch_step>.torch` with both
counters rendered zero-padded to a minimum width of 5 digits; in particular
model name `net`, epoch 3, epoch step 7 give a filename containing
`net_e00003_b00007`. -/
theorem save_filename_pattern (dir name : String) (e b : Nat) :
    save_filename dir name e b =
      dir ++ "/" ++ name ++ "_e" ++ format05 e ++ "_b" ++ format05 b ++ ".torch"
    ∧ format05 e =
        String.mk (List.replicate (5 - (toString e).length) '0') ++ toString e
    ∧ (format05 e).length = max 5 (toString e).length
    ∧ save_filename dir "net" 3 7 = dir ++ "/" ++ "net_e00003_b00007.torch" := by
  refine ⟨by simp [save_filename, save_basename, String.append_assoc], ?_, ?_, ?_⟩
  · by_cases h : (toString e).length < 5
    · simp [format05, h]
    · have h5 : 5 - (toString e).length = 0 := by omega
      simp [format05, h, h5]
  · by_cases h : (toString e).length < 5
    · simp [format05, h]
      omega
    · simp [format05, h]
      omega
  · simp [save_filename, save_basename, String.append_assoc]
    rfl

/-- C10: `_should_stop_training` consults only `n_global_iterations` when that
key is present (stopping iff `global_step` has reached it), whatever value
`n_epochs` holds; `n_epochs` is consulted only when `n_global_iterations` is
absent. -/
theorem should_stop_budget_precedence (cfg : Config) (n gs ep : Nat) :
    (cfg.n_global_iterations = some n →
      should_stop_training cfg gs ep = .ok (decide (gs ≥ n))
      ∧ ∀ x y : Option Nat,
        should_stop_training { cfg with n_epochs := x } gs ep =
          should_stop_training { cfg with n_epochs := y } gs ep)
    ∧ (cfg.n_global_iterations = none → ∀ m, cfg.n_epochs = some m →
        should_stop_training cfg gs ep = .ok (decide (ep ≥ m))) := by
  constructor
  · intro h
    exact ⟨by simp [should_stop_training, h], fun x y => by
      simp [should_stop_training, h]⟩
  · intro h m hm
    simp [should_stop_training, h, hm]

theorem should_stop_budget_precedence_witness :
    should_stop_training ⟨none, none, none, some 100, some 3, none, none⟩ 100 0 =
      .ok (decide (100 ≥ 100)) :=
  ((should_stop_budget_precedence ⟨none, none, none, some 100, some 3, none, none⟩
    100 100 0).1 rfl).1

theorem lookup_addLoss (n v : ℚ) (k name : String) (acc : List (String × ℚ)) :
    (addLoss n k v acc).lookup name =
      if name = k then some (lookupD acc k + v / n) else acc.lookup name := by
  induction acc with
  | nil =>
    by_cases h : name = k
    · subst h
      simp [addLoss, lookupD, List.lookup]
    · have hb : (name == k) = false := beq_eq_false_iff_ne.mpr h
      simp [addLoss, List.lookup, hb, h]
  | cons p rest ih =>
    obtain ⟨k', v'⟩ := p
    by_cases hk : k' = k
    · subst hk
      by_cases h : name = k'
      · subst h
        simp [addLoss, lookupD, List.lookup]
      · have hb : (name == k') = false := beq_eq_false_iff_ne.mpr h
        simp [addLoss, List.lookup, hb, h]
    · by_cases h : name = k'
      · have hb : (name == k') = true := by simp [h]
        have hnk : name ≠ k := fun hh => hk (h.symm.trans hh)
        have hbk : (k == k') = false :=
          beq_eq_false_iff_ne.mpr (fun hh => hk hh.symm)
        simp [addLoss, hk, List.lookup, hb, hnk, lookupD, hbk]
      · have hb : (name == k') = false := beq_eq_false_iff_ne.mpr h
        by_cases h2 : name = k
        · subst h2
          simp [addLoss, hk, List.lookup, hb, ih, lookupD]
        · simp [addLoss, hk, List.lookup, hb, ih, h2]

theorem lookupD_accumulate_batch (n : ℚ) (name : String)
    (losses : List (String × ℚ)) (acc : List (String × ℚ)) :
    lookupD (accumulate_batch n acc losses) name =
      lookupD acc name + batch_total name losses / n := by
  induction losses generalizing acc with
  | nil => simp [accumulate_batch, batch_total]
  | cons p rest ih =>
    obtain ⟨k, v⟩ := p
    have step : accumulate_batch n acc ((k, v) :: rest) =
        accumulate_batch n (addLoss n k v acc) rest := rfl
    rw [step, ih]
    by_cases h : name = k
    · subst h
      simp [lookupD, lookup_addLoss, batch_total, add_div]
      ring
    · have hk : k ≠ name := fun hh => h hh.symm
      simp [lookupD, lookup_addLoss, h, batch_total, hk]

theorem lookupD_test_losses_from (n : ℚ) (name : String)
    (batches : List (List (String × ℚ))) (acc : List (String × ℚ)) :
    lookupD (batches.foldl (accumulate_batch n) acc) name =
      lookupD acc name + agg_spec n name batches := by
  induction batches generalizing acc with
  | nil => simp [agg_spec]
  | cons b rest ih =>
    simp only [List.foldl_cons, ih, lookupD_accumulate_batch, agg_spec]
    ring

theorem lookup_isSome_accumulate_batch (n : ℚ) (name : String)
    (losses : List (String × ℚ)) (acc : List (String × ℚ)) :
    ((accumulate_batch n acc losses).lookup name).isSome =
      ((acc.lookup name).isSome || losses.any (fun p => p.1 == name)) := by
  induction losses generalizing acc with
  | nil => simp [accumulate_batch]
  | cons p rest ih =>
    obtain ⟨k, v⟩ := p
    have step : accumulate_batch n acc ((k, v) :: rest) =
        accumulate_batch n (addLoss n k v acc) rest := rfl
    rw [step, ih]
    by_cases h : name = k
    · subst h
      simp [lookup_addLoss]
    · have hk : (k == name) = false :=
        beq_eq_false_iff_ne.mpr (fun hh => h hh.symm)
      simp [lookup_addLoss, h, hk]

theorem lookup_isSome_test_losses (n : ℚ) (name : String)
    (batches : List (List (String × ℚ))) :
    ((test_losses n batches).lookup name).isSome =
      batches.any (fun b => b.any (fun p => p.1 == name)) := by
  have general : ∀ acc : List (String × ℚ),
      ((batches.foldl (accumulate_batch n) acc).lookup name).isSome =
        ((acc.lookup name).isSome ||
          batches.any (fun b => b.any (fun p => p.1 == name))) := by
    induction batches with
    | nil => simp
    | cons b rest ih =>
      intro acc
      simp [List.foldl_cons, ih, lookup_isSome_accumulate_batch, Bool.or_assoc]
  simpa [test_losses] using general []

/-- C6: the value `MLProject.test` aggregates for each metric name equals the
sum over all batches of the batch's value for that metric divided by the
total test-set item count `n` — a weighted accumulation of `value / n`, not
an unweighted mean of batch values; e.g. `loss` values `2` and `3` over a
test set of `10` items aggregate to `2/10 + 3/10`. -/
theorem test_aggregation_weighted (n : ℚ) (name : String)
    (batches : List (List (String × ℚ))) (h : 0 < n) :
    lookupD (test_losses n batches) name = agg_spec n name batches
    ∧ lookupD (test_losses 10 [[("loss", 2)], [("loss", 3)]]) "loss" =
        2 / 10 + 3 / 10 := by
  constructor
  · simpa [lookupD, List.lookup] using
      lookupD_test_losses_from n name batches []
  · norm_num [lookupD, test_losses, accumulate_batch, addLoss, List.lookup]

theorem test_aggregation_weighted_witness :
    (0 : ℚ) < 10
    ∧ lookupD (test_losses 10 [[("loss", 2)], [("loss", 3)]]) "loss" =
        agg_spec 10 "loss" [[("loss", 2)], [("loss", 3)]] :=
  ⟨by norm_num,
    (test_aggregation_weighted 10 "loss" [[("loss", 2)], [("loss", 3)]]
      (by norm_num)).1⟩

/-- C8: after the held-out stream is exhausted, `MLProject.test` fails with a
fatal lookup error when the model's benchmark metric name occurs in no
batch's losses (so it is absent from the aggregated mapping), and otherwise
returns exactly the aggregated value stored under that name. -/
theorem test_benchmark_lookup (n : ℚ) (benchmark : String)
    (batches : List (List (String × ℚ))) :
    ((∀ b ∈ batches, ∀ p ∈ b, p.1 ≠ benchmark) →
      test n batches benchmark = .error "KeyError: benchmark metric")
    ∧ ((∃ b ∈ batches, ∃ p ∈ b, p.1 = benchmark) →
      test n batches benchmark =
        .ok (lookupD (test_losses n batches) benchmark)) := by
  constructor
  · intro habs
    have hany : batches.any (fun b => b.any (fun p => p.1 == benchmark)) = false := by
      simp only [List.any_eq_false]
      intro b hb hcon
      rw [List.any_eq_true] at hcon
      obtain ⟨p, hp, hpe⟩ := hcon
      exact habs b hb p hp (by simpa using hpe)
    have hsome := lookup_isSome_test_losses n benchmark batches
    rw [hany] at hsome
    rcases hL : (test_losses n batches).lookup benchmark with _ | v
    · simp [test, hL]
    · rw [hL] at hsome
      simp at hsome
  · rintro ⟨b, hb, p, hp, hpe⟩
    have hany : batches.any (fun b => b.any (fun p => p.1 == benchmark)) = true := by
      simp only [List.any_eq_true]
      exact ⟨b, hb, p, hp, by simp [hpe]⟩
    have hsome := lookup_isSome_test_losses n benchmark batches
    rw [hany] at hsome
    rcases hL : (test_losses n batches).lookup benchmark with _ | v
    · rw [hL] at hsome
      simp at hsome
    · simp [test, hL, lookupD]

theorem test_benchmark_lookup_witness :
    test 10 [[("loss", 2)], [("loss", 3)]] "nll" =
      .error "KeyError: benchmark metric"
    ∧ test 10 [[("loss", 2)], [("loss", 3)]] "loss" =
        .ok (lookupD (test_losses 10 [[("loss", 2)], [("loss", 3)]]) "loss") :=
  ⟨(test_benchmark_lookup 10 "nll" [[("loss", 2)], [("loss", 3)]]).1
      (by decide),
   (test_benchmark_lookup 10 "loss" [[("loss", 2)], [("loss", 3)]]).2
      ⟨[("loss", 2)], by simp, ("loss", 2), by simp, rfl⟩⟩

theorem init_establishes_WF (iw : Config → List (String × Int))
    (mn : Config → String) (gtb : String → String) (fid : Nat)
    (hfid : fid ≠ 0) (config : Config) (i : Option Nat) (gs ep es : Nat)
    (bs : Option ℚ) (msd tbd : Option String) (ms : List (String × Int))
    (p : MLProject)
    (h : init iw mn gtb fid config i gs ep es bs msd tbd ms = .ok p) :
    WF iw p := by
  unfold init at h
  rcases msd with _ | d
  · rcases hgmd : get_model_dir config
        (toString (match i with | none => fid | some 0 => fid | some n => n) ++
          "_" ++ mn config) with e | d
    · simp [hgmd] at h
    · simp [hgmd] at h
      subst h
      refine ⟨?_, ?_, ?_⟩
      · rcases i with _ | m
        · exact hfid
        · rcases m with _ | m
          · exact hfid
          · simp
      · intro htb
        by_cases ht : truthyStr config.tensorboard_dir
        · simp [ht] at htb
          rcases tbd with _ | t
          · simp at htb
          · simp at htb
        · simpa using ht
      · intro hw
        by_cases hms : ms = []
        · simp only [hms, if_pos] at hw
          simpa using hw
        · simp only [hms, if_neg, not_false_iff] at hw
  · simp at h
    subst h
    refine ⟨?_, ?_, ?_⟩
    · rcases i with _ | m
      · exact hfid
      · rcases m with _ | m
        · exact hfid
        · simp
    · intro htb
      by_cases ht : truthyStr config.tensorboard_dir
      · simp [ht] at htb
        rcases tbd with _ | t
        · simp at htb
        · simp at htb
      · simpa using ht
    · intro hw
      by_cases hms : ms = []
      · simp only [hms, if_pos] at hw
        simpa using hw
      · simp only [hms, if_neg, not_false_iff] at hw

/-- C1: loading the state dict written by `save` reconstructs an instance in
which every serialized `RunState` field — `_id`, `config`, `global_step`,
`epoch`, `epoch_step`, `model_save_dir`, `tensorboard_run_dir` and the model
weights — is restored verbatim, while `best_score` is not restored and
resets to its default `None`.  `WF` captures the facts the constructor
guarantees of every reachable state. -/
theorem checkpoint_roundtrip (iw : Config → List (String × Int))
    (mn : Config → String) (gtb : String → String) (fid : Nat)
    (p : MLProject) (h : WF iw p) :
    load iw mn gtb fid (state_dict p) = .ok { p with best_score := none } := by
  obtain ⟨hid, htb, hw⟩ := h
  obtain ⟨pid, pcfg, pgs, pep, pes, pbs, pmsd, ptbd, pw⟩ := p
  simp only [WF] at hid htb hw
  unfold load init state_dict
  rcases pid with _ | m
  · exact absurd rfl hid
  · rcases pw with _ | ⟨w0, wrest⟩
    · have hiw : iw pcfg = [] := hw rfl
      rcases ptbd with _ | t
      · have ht : truthyStr pcfg.tensorboard_dir = false := htb rfl
        simp [hiw, ht]
      · simp [hiw]
    · rcases ptbd with _ | t
      · have ht : truthyStr pcfg.tensorboard_dir = false := htb rfl
        simp [ht]
      · simp

theorem checkpoint_roundtrip_witness :
    WF (fun _ => []) sample_project
    ∧ load (fun _ => []) (fun _ => "net") (fun s => s) 7
        (state_dict sample_project) =
      .ok { sample_project with best_score := none } :=
  ⟨⟨by decide, fun _ => by decide, fun h => absurd h (by decide)⟩,
    checkpoint_roundtrip (fun _ => []) (fun _ => "net") (fun s => s) 7
      sample_project ⟨by decide, fun _ => by decide, fun h => absurd h (by decide)⟩⟩

theorem run_batches_counters (cfg : Config) :
    ∀ (b : Nat) (st st2 : LoopState) (s : Bool),
      run_batches cfg st b = .ok (st2, s) →
      st.global_step ≤ st2.global_step
      ∧ st2.epoch_step = st.epoch_step + (st2.global_step - st.global_step)
      ∧ st2.epoch = st.epoch ∧ st2.best_score = st.best_score := by
  intro b
  induction b with
  | zero =>
    intro st st2 s h
    simp [run_batches] at h
    obtain ⟨h1, _⟩ := h
    subst h1
    simp
  | succ b ih =>
    intro st st2 s h
    simp only [run_batches] at h
    rcases hss : should_stop_training cfg (st.global_step + 1) st.epoch with e | tv
    · rw [hss] at h
      simp at h
    · rw [hss] at h
      rcases tv
      · simp only [] at h
        have hc := ih { st with global_step := st.global_step + 1,
                                epoch_step := st.epoch_step + 1 } st2 s h
        simp only [] at hc
        obtain ⟨c1, c2, c3, c4⟩ := hc
        refine ⟨by omega, by omega, c3, c4⟩
      · simp at h
        obtain ⟨h1, _⟩ := h
        subst h1
        simp

theorem train_epoch_counters (cfg : Config) (st : LoopState) (b : Nat)
    (st2 : LoopState) (s : Bool) (h : train_epoch cfg st b = .ok (st2, s)) :
    st.global_step ≤ st2.global_step
    ∧ ((st2 = st ∧ s = true) ∨
        st2.epoch_step = st2.global_step - st.global_step)
    ∧ st2.epoch = st.epoch ∧ st2.best_score = st.best_score := by
  unfold train_epoch at h
  rcases hss : should_stop_training cfg st.global_step st.epoch with e | tv
  · rw [hss] at h
    simp at h
  · rw [hss] at h
    rcases tv
    · simp only [] at h
      have hc := run_batches_counters cfg b { st with epoch_step := 0 } st2 s h
      simp only [] at hc
      obtain ⟨c1, c2, c3, c4⟩ := hc
      exact ⟨c1, Or.inr (by omega), c3, c4⟩
    · simp at h
      obtain ⟨h1, h2⟩ := h
      subst h1
      exact ⟨le_refl _, Or.inl ⟨rfl, h2⟩, rfl, rfl⟩

theorem eval_step_ok_counters (kind : String) (sc : ℚ) (st st2 : LoopState)
    (h : eval_step kind sc st = .ok st2) :
    st2.global_step = st.global_step ∧ st2.epoch = st.epoch
    ∧ st2.epoch_step = st.epoch_step := by
  unfold eval_step at h
  rcases hib : is_better kind st.best_score sc with e | tv
  · rw [hib] at h
    simp at h
  · rw [hib] at h
    rcases tv
    · simp at h
      subst h
      simp
    · simp at h
      subst h
      simp

theorem train_loop_gs_mono (cfg : Config) (kind : String) (has_test : Bool)
    (score : Nat → ℚ) (b : Nat) :
    ∀ (fuel : Nat) (st fin : LoopState),
      train_loop cfg kind has_test score b fuel st = .ok (some fin) →
      st.global_step ≤ fin.global_step := by
  intro fuel
  induction fuel with
  | zero =>
    intro st fin h
    simp [train_loop] at h
  | succ fuel ih =>
    intro st fin h
    simp only [train_loop] at h
    rcases hte : train_epoch cfg st b with e | p
    · rw [hte] at h
      simp at h
    · obtain ⟨st', stopped⟩ := p
      rw [hte] at h
      have hm1 := (train_epoch_counters cfg st b st' stopped hte).1
      rcases stopped
      · simp only [] at h
        rcases hev : (if has_test then eval_step kind (score st'.epoch) st'
            else .ok st') with e | st''
        · rw [hev] at h
          simp at h
        · rw [hev] at h
          simp only [] at h
          have hm2 := ih _ _ h
          simp only [] at hm2
          have hgs : st''.global_step = st'.global_step := by
            by_cases hht : has_test
            · rw [if_pos hht] at hev
              exact (eval_step_ok_counters kind (score st'.epoch) st' st'' hev).1
            · rw [if_neg hht] at hev
              simp at hev
              subst hev
              rfl
          omega
      · simp at h
        subst h
        exact hm1

theorem train_loop_best_score_no_test (cfg : Config) (kind : String)
    (score : Nat → ℚ) (b : Nat) :
    ∀ (fuel : Nat) (st fin : LoopState),
      train_loop cfg kind false score b fuel st = .ok (some fin) →
      fin.best_score = st.best_score := by
  intro fuel
  induction fuel with
  | zero =>
    intro st fin h
    simp [train_loop] at h
  | succ fuel ih =>
    intro st fin h
    simp only [train_loop] at h
    rcases hte : train_epoch cfg st b with e | p
    · rw [hte] at h
      simp at h
    · obtain ⟨st', stopped⟩ := p
      rw [hte] at h
      have hbs := (train_epoch_counters cfg st b st' stopped hte).2.2.2
      rcases stopped
      · simp only [Bool.false_eq_true, if_false] at h
        have hrec := ih _ _ h
        simp only [] at hrec
        rw [hrec, hbs]
      · simp at h
        subst h
        exact hbs

/-- C9: counter invariants of the training loop.  A completed `train_epoch`
call never decreases `global_step`; unless it stopped at entry (leaving the
state untouched), it leaves `epoch_step` equal to the number of batches it
processed — i.e. `epoch_step` was reset to 0 at the epoch boundary and then
incremented once per batch, in step with `global_step`; `train` as a whole
never decreases `global_step`; and without a test set (so no evaluation ever
completes) `best_score` stays exactly as it started — in particular `None`
for a fresh run. -/
theorem runstate_counter_invariants (cfg : Config) (kind : String)
    (has_test : Bool) (score : Nat → ℚ) (b fuel : Nat)
    (st st2 fin : LoopState) (s : Bool) :
    (train_epoch cfg st b = .ok (st2, s) →
      st.global_step ≤ st2.global_step)
    ∧ (train_epoch cfg st b = .ok (st2, s) →
      (st2 = st ∧ s = true) ∨
        st2.epoch_step = st2.global_step - st.global_step)
    ∧ (train_loop cfg kind has_test score b fuel st = .ok (some fin) →
      st.global_step ≤ fin.global_step)
    ∧ (train_loop cfg kind false score b fuel st = .ok (some fin) →
      fin.best_score = st.best_score) :=
  ⟨fun h => (train_epoch_counters cfg st b st2 s h).1,
   fun h => (train_epoch_counters cfg st b st2 s h).2.1,
   fun h => train_loop_gs_mono cfg kind has_test score b fuel st fin h,
   fun h => train_loop_best_score_no_test cfg kind score b fuel st fin h⟩

theorem runstate_counter_invariants_witness :
    ((⟨0, 0, 0, none⟩ : LoopState).global_step ≤
      (⟨1, 0, 1, none⟩ : LoopState).global_step)
    ∧ (((⟨1, 0, 1, none⟩ : LoopState) = ⟨0, 0, 0, none⟩ ∧ false = true) ∨
        (⟨1, 0, 1, none⟩ : LoopState).epoch_step =
          (⟨1, 0, 1, none⟩ : LoopState).global_step -
            (⟨0, 0, 0, none⟩ : LoopState).global_step)
    ∧ ((⟨0, 0, 0, none⟩ : LoopState).global_step ≤
        (⟨2, 1, 1, none⟩ : LoopState).global_step)
    ∧ (⟨2, 1, 1, none⟩ : LoopState).best_score =
        (⟨0, 0, 0, none⟩ : LoopState).best_score := by
  have h := runstate_counter_invariants
    ⟨none, none, none, some 2, none, none, none⟩ "loss" false (fun _ => 0)
    1 3 ⟨0, 0, 0, none⟩ ⟨1, 0, 1, none⟩ ⟨2, 1, 1, none⟩ false
  exact ⟨h.1 rfl, h.2.1 rfl, h.2.2.1 rfl, h.2.2.2 rfl⟩

theorem is_better_ok_of_valid (kind : String)
    (hkind : kind = "accuracy" ∨ kind = "loss" ∨ kind = "nll")
    (bs : Option ℚ) (sc : ℚ) :
    ∃ t, is_better kind bs sc = .ok t := by
  rcases bs with _ | v
  · exact ⟨true, rfl⟩
  · rcases hkind with h | h | h <;> subst h
    · exact ⟨decide (v < sc), by simp [is_better]⟩
    · exact ⟨decide (v < sc), by simp [is_better]⟩
    · exact ⟨decide (sc < v), by simp [is_better]⟩

theorem eval_step_ok_of_valid (kind : String)
    (hkind : kind = "accuracy" ∨ kind = "loss" ∨ kind = "nll")
    (sc : ℚ) (st : LoopState) :
    ∃ st2, eval_step kind sc st = .ok st2 := by
  obtain ⟨t, ht⟩ := is_better_ok_of_valid kind hkind st.best_score sc
  rcases t
  · exact ⟨st, by simp [eval_step, ht]⟩
  · exact ⟨{ st with best_score := some sc }, by simp [eval_step, ht]⟩

theorem train_loop_step_stop (cfg : Config) (kind : String) (has_test : Bool)
    (score : Nat → ℚ) (b fuel : Nat) (st st1 : LoopState)
    (hte : train_epoch cfg st b = .ok (st1, true)) :
    train_loop cfg kind has_test score b (fuel + 1) st = .ok (some st1) := by
  simp only [train_loop, hte]

theorem train_loop_step_continue (cfg : Config) (kind : String)
    (hkind : kind = "accuracy" ∨ kind = "loss" ∨ kind = "nll")
    (has_test : Bool) (score : Nat → ℚ) (b fuel : Nat) (st st1 : LoopState)
    (hte : train_epoch cfg st b = .ok (st1, false)) :
    ∃ st2 : LoopState,
      st2.global_step = st1.global_step ∧ st2.epoch = st1.epoch
      ∧ st2.epoch_step = st1.epoch_step
      ∧ train_loop cfg kind has_test score b (fuel + 1) st =
          train_loop cfg kind has_test score b fuel
            { st2 with epoch := st2.epoch + 1 } := by
  rcases hht : has_test
  · exact ⟨st1, rfl, rfl, rfl, by simp only [train_loop, hte,
      Bool.false_eq_true, if_false]⟩
  · obtain ⟨st2, hev⟩ := eval_step_ok_of_valid kind hkind (score st1.epoch) st1
    obtain ⟨c1, c2, c3⟩ := eval_step_ok_counters kind (score st1.epoch) st1 st2 hev
    exact ⟨st2, c1, c2, c3, by simp only [train_loop, hte, if_true, hev]⟩

theorem run_batches_no_stop (cfg : Config) (L : Nat)
    (hcfg : cfg.n_global_iterations = some L) :
    ∀ (b gs ep es : Nat) (bs : Option ℚ), gs + b < L →
      run_batches cfg ⟨gs, ep, es, bs⟩ b =
        .ok (⟨gs + b, ep, es + b, bs⟩, false) := by
  intro b
  induction b with
  | zero =>
    intro gs ep es bs h
    simp [run_batches]
  | succ b ih =>
    intro gs ep es bs h
    have hd : decide (gs + 1 ≥ L) = false := by
      simp only [decide_eq_false_iff_not, not_le]
      omega
    simp only [run_batches, should_stop_training, hcfg, hd]
    have e1 : gs + 1 + b = gs + (b + 1) := by omega
    have e2 : es + 1 + b = es + (b + 1) := by omega
    exact (ih (gs + 1) ep (es + 1) bs (by omega)).trans (by rw [e1, e2])

theorem run_batches_stop (cfg : Config) (L : Nat)
    (hcfg : cfg.n_global_iterations = some L) :
    ∀ (b gs ep es : Nat) (bs : Option ℚ), gs < L → L ≤ gs + b →
      run_batches cfg ⟨gs, ep, es, bs⟩ b =
        .ok (⟨L, ep, es + (L - gs), bs⟩, true) := by
  intro b
  induction b with
  | zero =>
    intro gs ep es bs h1 h2
    omega
  | succ b ih =>
    intro gs ep es bs h1 h2
    by_cases hreach : L ≤ gs + 1
    · have hL : L = gs + 1 := by omega
      subst hL
      have hd : decide (gs + 1 ≥ gs + 1) = true := by simp
      simp only [run_batches, should_stop_training, hcfg, hd]
      have e : gs + 1 - gs = 1 := by omega
      rw [e]
    · have hd : decide (gs + 1 ≥ L) = false := by
        simp only [decide_eq_false_iff_not, not_le]
        omega
      simp only [run_batches, should_stop_training, hcfg, hd]
      have e : es + 1 + (L - (gs + 1)) = es + (L - gs) := by omega
      exact (ih (gs + 1) ep (es + 1) bs (by omega) (by omega)).trans (by rw [e])

theorem run_batches_epoch_budget (cfg : Config) (E : Nat)
    (hcfg : cfg.n_global_iterations = none) (hE : cfg.n_epochs = some E) :
    ∀ (b gs ep es : Nat) (bs : Option ℚ), ep < E →
      run_batches cfg ⟨gs, ep, es, bs⟩ b =
        .ok (⟨gs + b, ep, es + b, bs⟩, false) := by
  intro b
  induction b with
  | zero =>
    intro gs ep es bs h
    simp [run_batches]
  | succ b ih =>
    intro gs ep es bs h
    have hd : decide (ep ≥ E) = false := by
      simp only [decide_eq_false_iff_not, not_le]
      omega
    simp only [run_batches, should_stop_training, hcfg, hE, hd]
    have e1 : gs + 1 + b = gs + (b + 1) := by omega
    have e2 : es + 1 + b = es + (b + 1) := by omega
    exact (ih (gs + 1) ep (es + 1) bs h).trans (by rw [e1, e2])

theorem train_epoch_entry_no_stop_global (cfg : Config) (L : Nat)
    (hcfg : cfg.n_global_iterations = some L) (b gs ep es : Nat)
    (bs : Option ℚ) (h : gs < L) :
    train_epoch cfg ⟨gs, ep, es, bs⟩ b = run_batches cfg ⟨gs, ep, 0, bs⟩ b := by
  have hd : decide (gs ≥ L) = false := by
    simp only [decide_eq_false_iff_not, not_le]
    omega
  simp only [train_epoch, should_stop_training, hcfg, hd]

theorem train_loop_halts_global (cfg : Config) (L : Nat)
    (hcfg : cfg.n_global_iterations = some L) (kind : String)
    (hkind : kind = "accuracy" ∨ kind = "loss" ∨ kind = "nll")
    (has_test : Bool) (score : Nat → ℚ) (b : Nat) :
    ∀ (fuel : Nat) (st : LoopState), st.global_step < L →
      L ≤ st.global_step + fuel * b →
      ∃ fin : LoopState,
        train_loop cfg kind has_test score b fuel st = .ok (some fin)
        ∧ fin.global_step = L := by
  intro fuel
  induction fuel with
  | zero =>
    intro st h1 h2
    simp only [Nat.zero_mul, Nat.add_zero] at h2
    omega
  | succ fuel ih =>
    intro st h1 h2
    obtain ⟨gs, ep, es, bs⟩ := st
    simp only [] at h1 h2
    by_cases hreach : L ≤ gs + b
    · have hte : train_epoch cfg ⟨gs, ep, es, bs⟩ b =
          .ok (⟨L, ep, 0 + (L - gs), bs⟩, true) :=
        (train_epoch_entry_no_stop_global cfg L hcfg b gs ep es bs h1).trans
          (run_batches_stop cfg L hcfg b gs ep 0 bs h1 hreach)
      exact ⟨⟨L, ep, 0 + (L - gs), bs⟩,
        train_loop_step_stop cfg kind has_test score b fuel _ _ hte, rfl⟩
    · have hte : train_epoch cfg ⟨gs, ep, es, bs⟩ b =
          .ok (⟨gs + b, ep, 0 + b, bs⟩, false) :=
        (train_epoch_entry_no_stop_global cfg L hcfg b gs ep es bs h1).trans
          (run_batches_no_stop cfg L hcfg b gs ep 0 bs (by omega))
      obtain ⟨st2, c1, c2, c3, hstep⟩ :=
        train_loop_step_continue cfg kind hkind has_test score b fuel _ _ hte
      have h2' : L ≤ ({ st2 with epoch := st2.epoch + 1 } : LoopState).global_step
          + fuel * b := by
        simp only []
        rw [Nat.succ_mul] at h2
        simp only [c1]
        omega
      have h1' : ({ st2 with epoch := st2.epoch + 1 } : LoopState).global_step < L := by
        simp only [c1]
        omega
      obtain ⟨fin, hfin, hgs⟩ := ih { st2 with epoch := st2.epoch + 1 } h1' h2'
      exact ⟨fin, hstep.trans hfin, hgs⟩

theorem train_loop_halts_epochs (cfg : Config) (E : Nat)
    (hcfg : cfg.n_global_iterations = none) (hE : cfg.n_epochs = some E)
    (kind : String)
    (hkind : kind = "accuracy" ∨ kind = "loss" ∨ kind = "nll")
    (has_test : Bool) (score : Nat → ℚ) (b : Nat) :
    ∀ (fuel : Nat) (st : LoopState), st.epoch ≤ E → E < st.epoch + fuel →
      ∃ fin : LoopState,
        train_loop cfg kind has_test score b fuel st = .ok (some fin)
        ∧ fin.epoch = E
        ∧ fin.global_step = st.global_step + (E - st.epoch) * b := by
  intro fuel
  induction fuel with
  | zero =>
    intro st h1 h2
    omega
  | succ fuel ih =>
    intro st h1 h2
    obtain ⟨gs, ep, es, bs⟩ := st
    simp only [] at h1 h2
    by_cases hstop : E ≤ ep
    · have hEep : ep = E := by omega
      subst hEep
      have hd : decide (ep ≥ ep) = true := by simp
      have hte : train_epoch cfg ⟨gs, ep, es, bs⟩ b =
          .ok (⟨gs, ep, es, bs⟩, true) := by
        simp only [train_epoch, should_stop_training, hcfg, hE, hd]
      exact ⟨⟨gs, ep, es, bs⟩,
        train_loop_step_stop cfg kind has_test score b fuel _ _ hte, rfl,
        by simp⟩
    · have hep : ep < E := by omega
      have hd : decide (ep ≥ E) = false := by
        simp only [decide_eq_false_iff_not, not_le]
        omega
      have hte : train_epoch cfg ⟨gs, ep, es, bs⟩ b =
          .ok (⟨gs + b, ep, 0 + b, bs⟩, false) := by
        have hentry : train_epoch cfg ⟨gs, ep, es, bs⟩ b =
            run_batches cfg ⟨gs, ep, 0, bs⟩ b := by
          simp only [train_epoch, should_stop_training, hcfg, hE, hd]
        exact hentry.trans
          (run_batches_epoch_budget cfg E hcfg hE b gs ep 0 bs hep)
      obtain ⟨st2, c1, c2, c3, hstep⟩ :=
        train_loop_step_continue cfg kind hkind has_test score b fuel _ _ hte
      obtain ⟨fin, hfin, hfe, hfg⟩ := ih { st2 with epoch := st2.epoch + 1 }
        (by simp only [c2]; omega) (by simp only [c2]; omega)
      refine ⟨fin, hstep.trans hfin, hfe, ?_⟩
      simp only [c1, c2] at hfg
      rw [hfg]
      have hsub : E - ep = (E - (ep + 1)) + 1 := by omega
      rw [hsub, Nat.succ_mul]
      ring

/-- C4: the stop predicate is evaluated at epoch start and again after every
batch (this is how `train_epoch` is defined, via `run_batches`).  With
`n_global_iterations = 100` in the config, a run from a fresh state halts
with `global_step` exactly `100` — the batch that reaches 100 is the last
one processed, whatever the per-epoch batch count `b`, i.e. regardless of
epoch boundaries (given a fuel bound big enough that the loop can run to its
stop, `100 ≤ fuelA * b`).  With `n_global_iterations` absent and
`n_epochs = 3`, the run halts exactly once `epoch ≥ 3`: zero-based epochs
0, 1 and 2 complete in full (`global_step = 3 * b`) and the loop stops at
the start of epoch 3. -/
theorem training_stop_condition (kind : String)
    (hkind : kind = "accuracy" ∨ kind = "loss" ∨ kind = "nll")
    (has_test : Bool) (score : Nat → ℚ) (cfgA cfgB : Config)
    (b fuelA fuelB : Nat)
    (hA : cfgA.n_global_iterations = some 100) (hfuelA : 100 ≤ fuelA * b)
    (hB1 : cfgB.n_global_iterations = none) (hB2 : cfgB.n_epochs = some 3)
    (hfuelB : 3 < fuelB) :
    (∃ fin : LoopState,
      train_loop cfgA kind has_test score b fuelA ⟨0, 0, 0, none⟩ =
        .ok (some fin) ∧ fin.global_step = 100)
    ∧ (∃ fin : LoopState,
      train_loop cfgB kind has_test score b fuelB ⟨0, 0, 0, none⟩ =
        .ok (some fin) ∧ fin.epoch = 3 ∧ fin.global_step = 3 * b) := by
  constructor
  · exact train_loop_halts_global cfgA 100 hA kind hkind has_test score b
      fuelA ⟨0, 0, 0, none⟩ (by simp) (by simpa using hfuelA)
  · obtain ⟨fin, h1, h2, h3⟩ := train_loop_halts_epochs cfgB 3 hB1 hB2 kind
      hkind has_test score b fuelB ⟨0, 0, 0, none⟩ (by simp)
      (by simpa using hfuelB)
    exact ⟨fin, h1, h2, by simpa using h3⟩

theorem training_stop_condition_witness :
    (∃ fin : LoopState,
      train_loop ⟨none, none, none, some 100, none, none, none⟩ "loss" false
        (fun _ => 0) 7 15 ⟨0, 0, 0, none⟩ = .ok (some fin)
        ∧ fin.global_step = 100)
    ∧ (∃ fin : LoopState,
      train_loop ⟨none, none, none, none, some 3, none, none⟩ "loss" false
        (fun _ => 0) 7 4 ⟨0, 0, 0, none⟩ = .ok (some fin)
        ∧ fin.epoch = 3 ∧ fin.global_step = 3 * 7) :=
  training_stop_condition "loss" (Or.inr (Or.inl rfl)) false (fun _ => 0)
    ⟨none, none, none, some 100, none, none, none⟩
    ⟨none, none, none, none, some 3, none, none⟩ 7 15 4
    rfl (by decide) rfl rfl (by decide)
